import Mathlib

/-!
A shallow embedding of the resolution and dispatch pipeline of the `getit`
repository (Go).  Go strings appearing in the claims are ASCII, so Go's
byte-wise string operations agree with the character-wise operations used
here.  The parts of Go's standard library that the pipeline calls
(`strings`, `net/url`, `path/filepath`) are modelled explicitly; the
`net/url` model is faithful for escape-free URLs (no `%xx` sequences and no
userinfo/port syntax), which covers every string the claims mention.
Filesystem access performed by the `FilePath` mapper is modelled by an
explicit `FSModel` record.  The repository ships two revisions of `git.go`
and of the mapper tests; the embedding follows the revision pinned by the
repository's own `TestGitMatch` and mapper tests (scheme-equality
`Git.Match`, `git+https` mapper outputs).
-/

namespace Getit

/-- Go helper `strings.HasPrefix s p` (character-wise). -/
def hasPreStr (s p : String) : Bool :=
  p.data.isPrefixOf s.data

/-- Go helper `strings.HasSuffix s p` (character-wise). -/
def hasSufStr (s p : String) : Bool :=
  p.data.isSuffixOf s.data

/-- Go `strings.Cut s sep` on character lists: split around the first
occurrence of `sep`, returning `some (before, after)` when `sep` occurs and
`none` otherwise. -/
def cutChars (sep : List Char) : List Char → Option (List Char × List Char)
  | [] => if sep.isEmpty then some ([], []) else none
  | c :: rest =>
    if sep.isPrefixOf (c :: rest) then some ([], (c :: rest).drop sep.length)
    else
      match cutChars sep rest with
      | some (before, after) => some (c :: before, after)
      | none => none

/-- Model of Go's `url.URL` restricted to the fields the pipeline reads
(`Scheme`, `Opaque`, `Host`, `Path`, `RawQuery`, `Fragment`). -/
structure URL where
  scheme : String
  opq : String
  host : String
  path : String
  rawQuery : String
  fragment : String
deriving DecidableEq, Repr

/-- Go `net/url` rejects URLs containing ASCII control bytes
(`b < ' ' || b == 0x7f`); this is the parse-failure condition of the
model. -/
def validURL (s : String) : Bool :=
  s.data.all (fun c => !(decide (c.toNat < 32) || decide (c.toNat = 127)))

/-- Model of Go's `getScheme`: `none` is the "missing protocol scheme"
error (a leading colon); `some (scheme, rest)` returns the scheme (possibly
empty when the URL is relative) and the remainder. -/
def getSchemeAux (acc orig : List Char) : List Char → Option (List Char × List Char)
  | [] => some ([], orig)
  | c :: rest =>
    if c.isAlpha then getSchemeAux (acc ++ [c]) orig rest
    else if c.isDigit || c == '+' || c == '-' || c == '.' then
      (if acc.isEmpty then some ([], orig) else getSchemeAux (acc ++ [c]) orig rest)
    else if c == ':' then
      (if acc.isEmpty then none else some (acc, rest))
    else some ([], orig)

def getScheme (l : List Char) : Option (List Char × List Char) :=
  getSchemeAux [] l l

/-- The first path segment of a scheme-less relative reference (used for
Go's "first path segment in URL cannot contain colon" check). -/
def firstSegment (l : List Char) : List Char :=
  match cutChars ['/'] l with
  | some (a, _) => a
  | none => l

/-- Authority/path split of the part following the scheme, mirroring the
tail of Go's `url.parse`. -/
def parseTail (scheme rest1 query frag : List Char) : URL :=
  if (!scheme.isEmpty || !(['/', '/', '/'].isPrefixOf rest1)) && ['/', '/'].isPrefixOf rest1 then
    let afterSS := rest1.drop 2
    let (auth, path) :=
      match cutChars ['/'] afterSS with
      | some (a, b) => (a, '/' :: b)
      | none => (afterSS, [])
    { scheme := scheme.asString, opq := "", host := auth.asString,
      path := path.asString, rawQuery := query.asString, fragment := frag.asString }
  else
    { scheme := scheme.asString, opq := "", host := "",
      path := rest1.asString, rawQuery := query.asString, fragment := frag.asString }

/-- Model of Go's `url.Parse` for escape-free URLs: split the fragment at
the first `#`, extract the scheme, split the query at the first `?`, then
parse the authority (when the remainder starts with `//`) and path.  A
scheme-followed-by-non-slash remainder is Go's opaque form. -/
def parseURL (s : String) : Option URL :=
  if validURL s = false then none
  else
    let l := s.data
    let (beforeFrag, frag) :=
      match cutChars ['#'] l with
      | some (a, b) => (a, b)
      | none => (l, [])
    match getScheme beforeFrag with
    | none => none
    | some (schemeRaw, rest0) =>
      let scheme := schemeRaw.map Char.toLower
      let (rest1, query) :=
        match cutChars ['?'] rest0 with
        | some (a, b) => (a, b)
        | none => (rest0, [])
      if scheme.isEmpty = false ∧ (['/'].isPrefixOf rest1) = false then
        some { scheme := scheme.asString, opq := rest1.asString, host := "",
               path := "", rawQuery := query.asString, fragment := frag.asString }
      else if scheme.isEmpty = true ∧ (['/'].isPrefixOf rest1) = false ∧
              (firstSegment rest1).contains ':' = true then none
      else some (parseTail scheme rest1 query frag)

/-- Model of Go's `url.URL.String` for the field subset of `URL` (no
userinfo, and `//` is printed exactly when the host is nonempty). -/
def urlString (u : URL) : String :=
  (if u.scheme = "" then "" else u.scheme ++ ":") ++
    (if u.opq = "" then
      (if u.host = "" then "" else "//" ++ u.host) ++ u.path
     else u.opq) ++
    (if u.rawQuery = "" then "" else "?" ++ u.rawQuery) ++
    (if u.fragment = "" then "" else "#" ++ u.fragment)

/-- Source from `api.go`: a resolved source with optional sub-directory. -/
structure Source where
  url : URL
  subDir : String
deriving DecidableEq, Repr

/-- Mapper from `api.go`: maps one form of a source to another. -/
def Mapper : Type := String → String × Bool

/-- The mapper loop of `Fetcher.Resolve` (`api.go`): the first mapper
reporting a match supplies the new source string; `none` when no mapper
matches. -/
def mapFirst : List Mapper → String → Option String
  | [], _ => none
  | m :: rest, source =>
    match m source with
    | (mapped, true) => some mapped
    | (_, false) => mapFirst rest source

/-- The sub-directory split of `Fetcher.Resolve` (`api.go`):
`base, subdir, ok := strings.Cut(u.Path, "//")`, and on a hit the URL's
path is replaced by `base`. -/
def mkSource (u : URL) : Source :=
  match cutChars ['/', '/'] u.path.data with
  | some (base, subdir) =>
    { url := { u with path := base.asString }, subDir := subdir.asString }
  | none => { url := u, subDir := "" }

/-- The resolver loop of `Fetcher.Resolve` (`api.go`): the first resolver
whose `Match` accepts the URL is returned together with the split
`Source`. -/
def selectResolver {ρ : Type} (rmatch : ρ → URL → Bool) :
    List ρ → URL → Option (ρ × Source)
  | [], _ => none
  | r :: rest, u =>
    if rmatch r u then some (r, mkSource u)
    else selectResolver rmatch rest u

/-- Outcome of `Fetcher.Resolve`: a Go panic, an error, or a resolver
paired with a `Source`. -/
inductive Resolved (ρ : Type) where
  | panicked (msg : String)
  | err (msg : String)
  | ok (r : ρ) (src : Source)
deriving DecidableEq, Repr

/-- Model of a `Fetcher` (`api.go`): ordered mappers, ordered resolvers,
and the dynamic dispatch of the `Resolver` interface's `Match` method. -/
structure Fetcher (ρ : Type) where
  mappers : List Mapper
  resolvers : List ρ
  rmatch : ρ → URL → Bool

/-- Go `fmt` `%q` for escape-free strings. -/
def goQuote (s : String) : String := "\"" ++ s ++ "\""

/-- The tail of `Fetcher.Resolve` after the mapper loop: parse the (possibly
rewritten) source string and run the resolver loop. -/
def resolveParsed {ρ : Type} (rmatch : ρ → URL → Bool) (resolvers : List ρ)
    (source : String) : Resolved ρ :=
  match parseURL source with
  | none => .err ("invalid source " ++ goQuote source)
  | some u =>
    match selectResolver rmatch resolvers u with
    | some (r, src) => .ok r src
    | none => .err ("unsupported source: " ++ urlString u)

/-- Fetcher.Resolve from `api.go`: run the mapper chain (first match wins,
with the panic check on the mapper's output), then parse and dispatch. -/
def Fetcher.Resolve {ρ : Type} (f : Fetcher ρ) (source : String) : Resolved ρ :=
  match mapFirst f.mappers source with
  | some mapped =>
    if (parseURL mapped).isSome then resolveParsed f.rmatch f.resolvers mapped
    else .panicked ("mapper did not produce a valid URL: " ++ mapped)
  | none => resolveParsed f.rmatch f.resolvers source

/-- GitHub mapper from `mappers.go`. -/
def GitHub (source : String) : String × Bool :=
  if hasPreStr source "github.com/" then ("git+https://" ++ source, true)
  else if hasPreStr source "https://github.com/" then ("git+" ++ source, true)
  else ("", false)

/-- Character class `[a-zA-Z0-9_-]` of `gitHubOrgRe` (`mappers.go`). -/
def isWordChar (c : Char) : Bool :=
  c.isAlpha || c.isDigit || c == '_' || c == '-'

/-- Matching of `gitHubOrgRe = ^([a-zA-Z0-9_-]+/[a-zA-Z0-9_-]+)([?#].*)`
against the start of the input, returning the two capture groups and the
unmatched remainder (RE2: `.` does not match a newline, `+` and `.*` are
greedy, and the character classes exclude `/`, `?`, `#`, so the match is
the maximal word runs followed by a mandatory `?`/`#` suffix). -/
def orgRepoMatch (l : List Char) : Option (List Char × List Char × List Char) :=
  let org := l.takeWhile isWordChar
  match l.dropWhile isWordChar with
  | '/' :: rest2 =>
    if org.isEmpty then none
    else
      let repo := rest2.takeWhile isWordChar
      match rest2.dropWhile isWordChar with
      | c :: rest4 =>
        if repo.isEmpty then none
        else if c == '?' || c == '#' then
          let tail := rest4.takeWhile (fun ch => ch != '\n')
          some (org ++ '/' :: repo, c :: tail, rest4.dropWhile (fun ch => ch != '\n'))
        else none
      | [] => none
  | _ => none

/-- GitHubOrgRepo mapper from `mappers.go`: on a `gitHubOrgRe` match,
`ReplaceAllString` rewrites the match to
`git+https://github.com/$1$2` and keeps the unmatched remainder. -/
def GitHubOrgRepo (source : String) : String × Bool :=
  match orgRepoMatch source.data with
  | some (orgRepo, sufMatch, remainder) =>
    (("git+https://github.com/".data ++ orgRepo ++ sufMatch ++ remainder).asString, true)
  | none => ("", false)

/-- Filesystem model for the `FilePath` mapper: Go's `os.UserHomeDir`,
`os.Getwd`, `os.Stat` (`none` is a stat error, `some b` reports
`IsDir`), and `filepath.EvalSymlinks` (`none` is an error). -/
structure FSModel where
  userHomeDir : Option String
  getwd : Option String
  statIsDir : String → Option Bool
  evalSymlinks : String → Option String

/-- Go `filepath.IsAbs` on unix. -/
def isAbsStr (p : String) : Bool := hasPreStr p "/"

/-- Go slicing `s[n:]` (character-wise; the sliced-off region is ASCII in
every use below). -/
def dropChars (s : String) (n : Nat) : String := (s.data.drop n).asString

/-- Splitting a character list at every occurrence of a separator
character (Go `strings.Split` on a one-character separator). -/
def splitOnCharAux (c : Char) : List Char → List Char → List (List Char)
  | [], acc => [acc.reverse]
  | x :: xs, acc =>
    if x == c then acc.reverse :: splitOnCharAux c xs []
    else splitOnCharAux c xs (x :: acc)

def splitOnChar (c : Char) (l : List Char) : List (List Char) :=
  splitOnCharAux c l []

/-- Joining components with a separator character (Go `strings.Join`). -/
def joinWithChar (c : Char) : List (List Char) → List Char
  | [] => []
  | [x] => x
  | x :: xs => x ++ c :: joinWithChar c xs

/-- Go `filepath.Clean` on unix (lexical cleaning): drop empty and `.`
components, resolve `..` against preceding components (absorbed at the
root for rooted paths, kept at the front for relative ones), and render
`.` for an empty relative result. -/
def cleanPath (path : String) : String :=
  if path = "" then "."
  else
    let rooted := hasPreStr path "/"
    let comps := (splitOnChar '/' path.data).filter
      (fun c => !c.isEmpty && c != ['.'])
    let outRev := comps.foldl (fun acc c =>
      if c == "..".data then
        match acc with
        | [] => if rooted then [] else ["..".data]
        | a :: rest => if a == "..".data then c :: a :: rest else rest
      else c :: acc) ([] : List (List Char))
    let core := joinWithChar '/' outRev.reverse
    if rooted then ('/' :: core).asString
    else if core.isEmpty then "." else core.asString

/-- Go `filepath.Join` of two elements on unix. -/
def joinPath (a b : String) : String :=
  if a = "" then (if b = "" then "" else cleanPath b)
  else if b = "" then cleanPath a
  else cleanPath (a ++ "/" ++ b)

/-- FilePath mapper from `file.go`, with filesystem access routed through
an `FSModel`.  Mirrors the source: empty input is a non-match, a
`file://` input passes through, a `~/` input is joined onto the home
directory, a relative input is made absolute against the working directory,
and the result must stat as a directory and survive symlink resolution. -/
def FilePath (fs : FSModel) (source : String) : String × Bool :=
  if source = "" then ("", false)
  else if hasPreStr source "file://" then (source, true)
  else
    match (if hasPreStr source "~/" then
             match fs.userHomeDir with
             | none => none
             | some home => some (joinPath home (dropChars source 2))
           else some source) with
    | none => ("", false)
    | some path1 =>
      match (if isAbsStr path1 then some path1
             else match fs.getwd with
                  | none => none
                  | some wd => some (joinPath wd path1)) with
      | none => ("", false)
      | some path2 =>
        match fs.statIsDir path2 with
        | some true =>
          match fs.evalSymlinks path2 with
          | none => ("", false)
          | some resolved => ("file://" ++ resolved, true)
        | _ => ("", false)

/-- File resolver's Match from `file.go`. -/
def File.Match (u : URL) : Bool := u.scheme == "file"

/-- Git resolver's Match from `git.go` (the revision pinned by
`TestGitMatch`). -/
def Git.Match (u : URL) : Bool :=
  u.scheme == "git+https" || u.scheme == "git+ssh" || u.scheme == "git"

/-- Character class `[a-z]` of `tarRe` (`tar.go`). -/
def isLowerAZ (c : Char) : Bool :=
  decide ('a'.toNat ≤ c.toNat) && decide (c.toNat ≤ 'z'.toNat)

/-- Language of the first `tarRe` alternative `\.tar(\.[a-z]+)?`: the
word `.tar`, optionally followed by a dot and a nonempty run of lowercase
letters. -/
def tarAlt1 (l : List Char) : Bool :=
  ".tar".data.isPrefixOf l &&
    (let rest := l.drop 4
     rest.isEmpty ||
       (".".data.isPrefixOf rest && !(rest.drop 1).isEmpty &&
         (rest.drop 1).all isLowerAZ))

/-- The literal alternatives of `tarRe`. -/
def tarLits : List (List Char) :=
  [".tbz".data, ".tbz2".data, ".txz".data, ".tzstd".data,
   ".tlz".data, ".tZ".data, ".tgz".data]

/-- Language of the second `tarRe` alternative
`\.tbz|\.tbz2|\.txz|\.tzstd|\.tlz|\.tZ|\.tgz`. -/
def tarAlt2 (l : List Char) : Bool := tarLits.any (fun lit => lit == l)

/-- Language of `tarRe` (`tar.go`). -/
def tarPat (l : List Char) : Bool := tarAlt1 l || tarAlt2 l

/-- RE2 `MatchString` semantics: some contiguous substring is in the
pattern's language. -/
def reHasMatch (p : List Char → Bool) (s : List Char) : Bool :=
  s.tails.any (fun t => t.inits.any p)

/-- Go `tarRe.MatchString` (`tar.go`). -/
def tarReMatchStr (s : String) : Bool := reHasMatch tarPat s.data

/-- TAR resolver's Match from `tar.go`. -/
def TAR.Match (u : URL) : Bool := tarReMatchStr u.path

/-- ZIP resolver's Match from `zip.go`. -/
def ZIP.Match (u : URL) : Bool := hasSufStr u.path ".zip"

/-- The four built-in resolvers of `default.go`, in registration order. -/
inductive DefaultResolver where
  | file
  | git
  | tar
  | zip
deriving DecidableEq, Repr

/-- Dynamic dispatch of `Resolver.Match` for the built-in resolvers. -/
def defaultMatch : DefaultResolver → URL → Bool
  | .file, u => File.Match u
  | .git, u => Git.Match u
  | .tar, u => TAR.Match u
  | .zip, u => ZIP.Match u

/-- The Default fetcher of `default.go`, parameterized by the filesystem
model consulted by the `FilePath` mapper. -/
def Default (fs : FSModel) : Fetcher DefaultResolver :=
  { mappers := [GitHub, GitHubOrgRepo, FilePath fs],
    resolvers := [.file, .git, .tar, .zip],
    rmatch := defaultMatch }

/-- A filesystem model on which every lookup fails (used for concrete
evaluation of URLs that are not filesystem paths). -/
def fsEmpty : FSModel :=
  { userHomeDir := none, getwd := none,
    statIsDir := fun _ => none, evalSymlinks := fun _ => none }

/-- Stub mapper that never matches (used to exercise the mapper chain). -/
def stubNo : Mapper := fun _ => ("", false)

/-- Stub mapper that always matches, producing `x://h/p`. -/
def stubX : Mapper := fun _ => ("x://h/p", true)

/-- Stub mapper that always matches, producing `y://h/q` (a second,
conflicting match for chain-order experiments). -/
def stubY : Mapper := fun _ => ("y://h/q", true)

/-! ### General lemmas about the embedded operations -/

theorem hasPre_append (p rest : String) : hasPreStr (p ++ rest) p = true := by
  unfold hasPreStr
  rw [String.data_append]
  exact List.isPrefixOf_iff_prefix.mpr (List.prefix_append _ _)

theorem mapFirst_cons_true (m : Mapper) (ms : List Mapper) (s : String)
    (h : (m s).2 = true) : mapFirst (m :: ms) s = some (m s).1 := by
  rcases hms : m s with ⟨a, b⟩
  rw [hms] at h
  cases b
  · cases h
  · simp [mapFirst, hms]

theorem mapFirst_cons_false (m : Mapper) (ms : List Mapper) (s : String)
    (h : (m s).2 = false) : mapFirst (m :: ms) s = mapFirst ms s := by
  rcases hms : m s with ⟨a, b⟩
  rw [hms] at h
  cases b
  · simp [mapFirst, hms]
  · cases h

theorem mapFirst_append_none (ms₁ ms₂ : List Mapper) (s : String)
    (h : ∀ m ∈ ms₁, (m s).2 = false) :
    mapFirst (ms₁ ++ ms₂) s = mapFirst ms₂ s := by
  induction ms₁ with
  | nil => rfl
  | cons m ms ih =>
    rw [List.cons_append, mapFirst_cons_false m _ s (h m (List.mem_cons_self m ms))]
    exact ih (fun m' hm' => h m' (List.mem_cons_of_mem _ hm'))

theorem mapFirst_none (ms : List Mapper) (s : String)
    (h : ∀ m ∈ ms, (m s).2 = false) : mapFirst ms s = none := by
  induction ms with
  | nil => rfl
  | cons m ms ih =>
    rw [mapFirst_cons_false m ms s (h m (List.mem_cons_self m ms))]
    exact ih (fun m' hm' => h m' (List.mem_cons_of_mem _ hm'))

theorem selectResolver_cons_true {ρ : Type} (rm : ρ → URL → Bool) (r : ρ)
    (rs : List ρ) (u : URL) (h : rm r u = true) :
    selectResolver rm (r :: rs) u = some (r, mkSource u) := by
  simp [selectResolver, h]

theorem selectResolver_cons_false {ρ : Type} (rm : ρ → URL → Bool) (r : ρ)
    (rs : List ρ) (u : URL) (h : rm r u = false) :
    selectResolver rm (r :: rs) u = selectResolver rm rs u := by
  simp [selectResolver, h]

theorem selectResolver_append_none {ρ : Type} (rm : ρ → URL → Bool)
    (rs₁ rs₂ : List ρ) (u : URL) (h : ∀ r ∈ rs₁, rm r u = false) :
    selectResolver rm (rs₁ ++ rs₂) u = selectResolver rm rs₂ u := by
  induction rs₁ with
  | nil => rfl
  | cons r rs ih =>
    rw [List.cons_append, selectResolver_cons_false rm r _ u (h r (List.mem_cons_self r rs))]
    exact ih (fun r' hr' => h r' (List.mem_cons_of_mem _ hr'))

theorem selectResolver_none {ρ : Type} (rm : ρ → URL → Bool)
    (rs : List ρ) (u : URL) (h : ∀ r ∈ rs, rm r u = false) :
    selectResolver rm rs u = none := by
  induction rs with
  | nil => rfl
  | cons r rs ih =>
    rw [selectResolver_cons_false rm r rs u (h r (List.mem_cons_self r rs))]
    exact ih (fun r' hr' => h r' (List.mem_cons_of_mem _ hr'))

theorem Resolve_mapFirst_some {ρ : Type} (f : Fetcher ρ) (s m' : String)
    (h : mapFirst f.mappers s = some m') :
    f.Resolve s =
      (if (parseURL m').isSome then resolveParsed f.rmatch f.resolvers m'
       else .panicked ("mapper did not produce a valid URL: " ++ m')) := by
  unfold Fetcher.Resolve
  rw [h]

theorem Resolve_mapFirst_none {ρ : Type} (f : Fetcher ρ) (s : String)
    (h : mapFirst f.mappers s = none) :
    f.Resolve s = resolveParsed f.rmatch f.resolvers s := by
  unfold Fetcher.Resolve
  rw [h]

/-! ### C1: the mapper chain is first-match-wins -/

/-- C1: for every input string, the candidate URL that `Resolve` parses is
the output of the first mapper (in registration order) whose second result
is `true`, applied to the original input; mappers after the first match are
never consulted (the result coincides with that of a chain holding the
matching mapper alone); and if no mapper matches, the candidate URL is the
original input string unmodified. -/
theorem claim_C1 {ρ : Type} (rm : ρ → URL → Bool) (rs : List ρ)
    (source : String) (ms₁ ms₂ : List Mapper) (m : Mapper) :
    ((∀ m' ∈ ms₁, (m' source).2 = false) → (m source).2 = true →
      mapFirst (ms₁ ++ m :: ms₂) source = some (m source).1 ∧
      Fetcher.Resolve ⟨ms₁ ++ m :: ms₂, rs, rm⟩ source =
        Fetcher.Resolve ⟨[m], rs, rm⟩ source) ∧
    ((∀ m' ∈ ms₁ ++ m :: ms₂, (m' source).2 = false) →
      mapFirst (ms₁ ++ m :: ms₂) source = none ∧
      Fetcher.Resolve ⟨ms₁ ++ m :: ms₂, rs, rm⟩ source =
        resolveParsed rm rs source) := by
  constructor
  · intro h₁ h₂
    have hmap : mapFirst (ms₁ ++ m :: ms₂) source = some (m source).1 := by
      rw [mapFirst_append_none ms₁ (m :: ms₂) source h₁]
      exact mapFirst_cons_true m ms₂ source h₂
    have hmap1 : mapFirst [m] source = some (m source).1 :=
      mapFirst_cons_true m [] source h₂
    refine ⟨hmap, ?_⟩
    rw [Resolve_mapFirst_some ⟨ms₁ ++ m :: ms₂, rs, rm⟩ source (m source).1 hmap,
        Resolve_mapFirst_some ⟨[m], rs, rm⟩ source (m source).1 hmap1]
  · intro h
    have hmap : mapFirst (ms₁ ++ m :: ms₂) source = none :=
      mapFirst_none _ source h
    exact ⟨hmap, Resolve_mapFirst_none ⟨ms₁ ++ m :: ms₂, rs, rm⟩ source hmap⟩

/-- Witness for C1 at a concrete chain: a non-matching stub, then two
conflicting always-matching stubs; the first match wins and the later stub
is irrelevant. -/
theorem claim_C1_witness :
    mapFirst [stubNo, stubX, stubY] "in" = some "x://h/p" ∧
    Fetcher.Resolve ⟨[stubNo, stubX, stubY], ([] : List Unit), fun _ _ => false⟩ "in" =
      Fetcher.Resolve ⟨[stubX], ([] : List Unit), fun _ _ => false⟩ "in" := by
  have h := (claim_C1 (ρ := Unit) (fun _ _ => false) [] "in" [stubNo] [stubY] stubX).1
    (by
      intro m' hm'
      rw [List.mem_singleton] at hm'
      subst hm'
      rfl)
    rfl
  exact h

/-! ### C2: resolver selection is first-match-wins -/

/-- C2: for every parsed candidate URL and every ordered resolver list,
`Resolve` returns the first resolver (in registration order) whose `Match`
returns `true` for that URL; when several resolvers match, the
first-registered one is selected and later resolvers are irrelevant. -/
theorem claim_C2 {ρ : Type} (rm : ρ → URL → Bool) (rs₁ rs₂ : List ρ) (r : ρ)
    (u : URL) (s : String) :
    ((∀ r' ∈ rs₁, rm r' u = false) → rm r u = true →
      selectResolver rm (rs₁ ++ r :: rs₂) u = some (r, mkSource u)) ∧
    (parseURL s = some u → (∀ r' ∈ rs₁, rm r' u = false) → rm r u = true →
      resolveParsed rm (rs₁ ++ r :: rs₂) s = .ok r (mkSource u)) := by
  have key : (∀ r' ∈ rs₁, rm r' u = false) → rm r u = true →
      selectResolver rm (rs₁ ++ r :: rs₂) u = some (r, mkSource u) := by
    intro h₁ h₂
    rw [selectResolver_append_none rm rs₁ (r :: rs₂) u h₁]
    exact selectResolver_cons_true rm r rs₂ u h₂
  refine ⟨key, ?_⟩
  intro hp h₁ h₂
  simp [resolveParsed, hp, key h₁ h₂]

/-- Witness for C2: two resolvers that both match every URL; the
first-registered one is selected. -/
theorem claim_C2_witness :
    selectResolver (fun (_ : Bool) (_ : URL) => true) [true, false]
        ⟨"https", "", "h", "/x", "", ""⟩ =
      some (true, mkSource ⟨"https", "", "h", "/x", "", ""⟩) ∧
    resolveParsed (fun (_ : Bool) (_ : URL) => true) [true, false] "https://h/x" =
      .ok true (mkSource ⟨"https", "", "h", "/x", "", ""⟩) := by
  have h := claim_C2 (fun (_ : Bool) (_ : URL) => true) [] [false] true
    ⟨"https", "", "h", "/x", "", ""⟩ "https://h/x"
  exact ⟨h.1 (by intro r' hr'; cases hr') rfl,
         h.2 rfl (by intro r' hr'; cases hr') rfl⟩

/-! ### C3: sub-directory extraction at the first occurrence of // -/

theorem cutChars_some_spec (sep : List Char) :
    ∀ l pre post : List Char, cutChars sep l = some (pre, post) →
      l = pre ++ sep ++ post ∧
      ∀ pre2 post2 : List Char, l = pre2 ++ sep ++ post2 → pre.length ≤ pre2.length := by
  intro l
  induction l with
  | nil =>
    intro pre post h
    simp only [cutChars] at h
    split at h
    · rename_i hsep
      rw [Option.some.injEq, Prod.mk.injEq] at h
      obtain ⟨rfl, rfl⟩ := h
      rw [List.isEmpty_iff] at hsep
      subst hsep
      exact ⟨rfl, fun _ _ _ => Nat.zero_le _⟩
    · cases h
  | cons c rest ih =>
    intro pre post h
    simp only [cutChars] at h
    split at h
    · rename_i hpre
      rw [Option.some.injEq, Prod.mk.injEq] at h
      obtain ⟨rfl, rfl⟩ := h
      obtain ⟨t, ht⟩ := List.isPrefixOf_iff_prefix.mp hpre
      constructor
      · rw [List.nil_append, ← ht, List.drop_left]
      · exact fun _ _ _ => Nat.zero_le _
    · rename_i hnpre
      split at h
      · rename_i p q hrec
        rw [Option.some.injEq, Prod.mk.injEq] at h
        obtain ⟨rfl, rfl⟩ := h
        obtain ⟨hre, hmin⟩ := ih p q hrec
        constructor
        · rw [List.cons_append, List.cons_append, ← hre]
        · intro pre2 post2 heq
          cases pre2 with
          | nil =>
            exfalso
            rw [List.nil_append] at heq
            exact absurd (List.isPrefixOf_iff_prefix.mpr ⟨post2, heq.symm⟩) (by simp [hnpre])
          | cons c2 pre2' =>
            rw [List.cons_append, List.cons_append, List.cons.injEq] at heq
            exact Nat.succ_le_succ (hmin pre2' post2 heq.2)
      · cases h

theorem cutChars_none_spec (sep : List Char) :
    ∀ l : List Char, cutChars sep l = none →
      ∀ pre post : List Char, l ≠ pre ++ sep ++ post := by
  intro l
  induction l with
  | nil =>
    intro h pre post heq
    simp only [cutChars] at h
    split at h
    · cases h
    · rename_i hsep
      have h1 := List.append_eq_nil.mp heq.symm
      have h2 := List.append_eq_nil.mp h1.1
      rw [h2.2] at hsep
      simp at hsep
  | cons c rest ih =>
    intro h pre post heq
    simp only [cutChars] at h
    split at h
    · cases h
    · rename_i hnpre
      split at h
      · cases h
      · rename_i hrec
        cases pre with
        | nil =>
          rw [List.nil_append] at heq
          exact absurd (List.isPrefixOf_iff_prefix.mpr ⟨post, heq.symm⟩) (by simp [hnpre])
        | cons c2 pre' =>
          rw [List.cons_append, List.cons_append, List.cons.injEq] at heq
          exact ih hrec pre' post heq.2

/-- C3: the selected resolver's `Match` predicate is evaluated on the full,
undivided URL (including its path), and the returned `Source` splits the
path at the FIRST occurrence of `//`: the portion before becomes the path
and the portion after becomes `SubDir`; without `//` the path is unchanged
and `SubDir` is empty; concretely, `http://host/a.tgz//sub/dir` resolves to
the TAR resolver with path `/a.tgz` and `SubDir` `sub/dir`. -/
theorem claim_C3 :
    (∀ {ρ : Type} (rm : ρ → URL → Bool) (rs : List ρ) (u : URL) (r : ρ) (src : Source),
        selectResolver rm rs u = some (r, src) → rm r u = true ∧ src = mkSource u) ∧
    (∀ (u : URL) (pre post : List Char),
        cutChars ['/', '/'] u.path.data = some (pre, post) →
          u.path.data = pre ++ ['/', '/'] ++ post ∧
          (∀ pre2 post2 : List Char,
              u.path.data = pre2 ++ ['/', '/'] ++ post2 → pre.length ≤ pre2.length) ∧
          mkSource u = ⟨{ u with path := pre.asString }, post.asString⟩) ∧
    (∀ u : URL, cutChars ['/', '/'] u.path.data = none →
        mkSource u = ⟨u, ""⟩ ∧
        ∀ pre2 post2 : List Char, u.path.data ≠ pre2 ++ ['/', '/'] ++ post2) ∧
    (Default fsEmpty).Resolve "http://host/a.tgz//sub/dir" =
      .ok .tar ⟨⟨"http", "", "host", "/a.tgz", "", ""⟩, "sub/dir"⟩ := by
  refine ⟨?_, ?_, ?_, ?_⟩
  · intro ρ rm rs u r src h
    induction rs with
    | nil => cases h
    | cons r' rs ih =>
      by_cases hr : rm r' u = true
      · rw [selectResolver_cons_true rm r' rs u hr, Option.some.injEq, Prod.mk.injEq] at h
        obtain ⟨rfl, rfl⟩ := h
        exact ⟨hr, rfl⟩
      · rw [selectResolver_cons_false rm r' rs u (by simpa using hr)] at h
        exact ih h
  · intro u pre post h
    obtain ⟨heq, hmin⟩ := cutChars_some_spec ['/', '/'] u.path.data pre post h
    exact ⟨heq, hmin, by simp [mkSource, h]⟩
  · intro u h
    exact ⟨by simp [mkSource, h], cutChars_none_spec ['/', '/'] u.path.data h⟩
  · rfl

/-- Witness for C3 at the spec's own example URL. -/
theorem claim_C3_witness :
    (defaultMatch DefaultResolver.tar ⟨"http", "", "host", "/a.tgz//sub/dir", "", ""⟩ = true) ∧
    ("/a.tgz//sub/dir".data = "/a.tgz".data ++ ['/', '/'] ++ "sub/dir".data ∧
      mkSource ⟨"http", "", "host", "/a.tgz//sub/dir", "", ""⟩ =
        ⟨⟨"http", "", "host", "/a.tgz", "", ""⟩, "sub/dir"⟩) ∧
    mkSource ⟨"http", "", "host", "/a.tgz", "", ""⟩ =
      ⟨⟨"http", "", "host", "/a.tgz", "", ""⟩, ""⟩ := by
  have h1 := claim_C3.1 defaultMatch [DefaultResolver.tar]
    ⟨"http", "", "host", "/a.tgz//sub/dir", "", ""⟩ DefaultResolver.tar
    (mkSource ⟨"http", "", "host", "/a.tgz//sub/dir", "", ""⟩) rfl
  have h2 := claim_C3.2.1 ⟨"http", "", "host", "/a.tgz//sub/dir", "", ""⟩
    "/a.tgz".data "sub/dir".data rfl
  have h3 := claim_C3.2.2.1 ⟨"http", "", "host", "/a.tgz", "", ""⟩ rfl
  exact ⟨h1.1, ⟨h2.1, h2.2.2⟩, h3.1⟩

/-! ### C4: the GitHub mapper on scheme-less github.com inputs -/

/-- Counterexample to C4 as stated: on the input `github.com/user/repo` the
GitHub mapper reports a match but returns the string with the scheme
`git+https`, not `https`. -/
theorem claim_C4_cex :
    GitHub "github.com/user/repo" = ("git+https://github.com/user/repo", true) ∧
    GitHub "github.com/user/repo" ≠ ("https://github.com/user/repo", true) := by
  constructor
  · rfl
  · decide

/-- C4 (amended): for every input beginning with `github.com/` (no scheme),
the GitHub mapper reports a match and returns `git+https://github.com/`
followed by the same rest-of-path, query, and fragment as the input,
preserved verbatim. -/
theorem claim_C4_amended (rest : String) :
    GitHub ("github.com/" ++ rest) = ("git+https://github.com/" ++ rest, true) := by
  unfold GitHub
  rw [if_pos (by rw [hasPre_append])]
  rw [← String.append_assoc]
  rfl

/-- Witness for C4 (amended) at the repository's own test input. -/
theorem claim_C4_witness :
    GitHub ("github.com/" ++ "user/repo") =
      ("git+https://github.com/" ++ "user/repo", true) :=
  claim_C4_amended "user/repo"

/-! ### C5: the GitHubOrgRepo mapper -/

theorem takeWhile_append_all {p : Char → Bool} (l₁ l₂ : List Char)
    (h₁ : ∀ c ∈ l₁, p c = true) (h₂ : ∀ c tl, l₂ = c :: tl → p c = false) :
    (l₁ ++ l₂).takeWhile p = l₁ ∧ (l₁ ++ l₂).dropWhile p = l₂ := by
  induction l₁ with
  | nil =>
    simp only [List.nil_append]
    cases l₂ with
    | nil => exact ⟨rfl, rfl⟩
    | cons c tl =>
      have hc := h₂ c tl rfl
      exact ⟨by simp [List.takeWhile_cons, hc], by simp [List.dropWhile_cons, hc]⟩
  | cons a l₁ ih =>
    have ha := h₁ a (List.mem_cons_self a l₁)
    have ihh := ih (fun c hc => h₁ c (List.mem_cons_of_mem a hc))
    exact ⟨by simp [List.takeWhile_cons, ha, ihh.1],
           by simp [List.dropWhile_cons, ha, ihh.2]⟩

theorem mem_of_dropWhile_head {p : Char → Bool} :
    ∀ (l : List Char) (c : Char) (tl : List Char),
      l.dropWhile p = c :: tl → c ∈ l := by
  intro l
  induction l with
  | nil => intro c tl h; cases h
  | cons a l ih =>
    intro c tl h
    rw [List.dropWhile_cons] at h
    split at h
    · exact List.mem_cons_of_mem a (ih c tl h)
    · rw [List.cons.injEq] at h
      exact h.1 ▸ List.mem_cons_self a l

/-- Counterexample to C5 as stated: the input `user/repo` — exactly two
word segments and no query or fragment — does NOT match (the regex's
`([?#].*)` group is mandatory), and on the matching input
`user/repo?ref=main` the output scheme is `git+https`, not `https`. -/
theorem claim_C5_cex :
    GitHubOrgRepo "user/repo" = ("", false) ∧
    GitHubOrgRepo "user/repo?ref=main" = ("git+https://github.com/user/repo?ref=main", true) ∧
    GitHubOrgRepo "user/repo?ref=main" ≠ ("https://github.com/user/repo?ref=main", true) := by
  exact ⟨rfl, rfl, by decide⟩

/-- C5 (amended): the GitHubOrgRepo mapper matches exactly the inputs
`<org>/<repo><suffix>` where each segment matches `[A-Za-z0-9_-]+` and
`<suffix>` is a MANDATORY `?query` or `#fragment` part; matches are mapped
to `git+https://github.com/<org>/<repo><suffix>` with the suffix copied
byte-for-byte.  Inputs without the `?`/`#` suffix (including a bare
`org/repo`), with three or more segments (the character after the second
segment being `/`, or any non-word character other than `?`/`#`), or with
no slash at all (bare words and the empty string) do not match. -/
theorem claim_C5_amended (s : String) :
    (∀ org repo tail : List Char,
      s.data = org ++ '/' :: (repo ++ tail) →
      org ≠ [] → (∀ c ∈ org, isWordChar c = true) →
      repo ≠ [] → (∀ c ∈ repo, isWordChar c = true) →
      (∀ c tl, tail = c :: tl → (c = '?' ∨ c = '#') →
        GitHubOrgRepo s =
          (("git+https://github.com/".data ++ org ++ '/' :: (repo ++ tail)).asString,
            true)) ∧
      (tail = [] → GitHubOrgRepo s = ("", false)) ∧
      (∀ c tl, tail = c :: tl → isWordChar c = false → c ≠ '?' → c ≠ '#' →
        GitHubOrgRepo s = ("", false))) ∧
    ((∀ c ∈ s.data, c ≠ '/') → GitHubOrgRepo s = ("", false)) := by
  constructor
  · intro org repo tail hdecomp horg horgw hrepo hrepow
    have hoE : org.isEmpty = false := by
      cases org with
      | nil => exact absurd rfl horg
      | cons a l => rfl
    have hrE : repo.isEmpty = false := by
      cases repo with
      | nil => exact absurd rfl hrepo
      | cons a l => rfl
    have hslash : isWordChar '/' = false := rfl
    -- the org run: everything before the first slash
    have e1 := takeWhile_append_all org ('/' :: (repo ++ tail)) horgw
      (by intro c tl h; rw [List.cons.injEq] at h; exact h.1 ▸ hslash)
    refine ⟨?_, ?_, ?_⟩
    · intro c tl htail hc
      subst htail
      have hcw : isWordChar c = false := by
        rcases hc with rfl | rfl <;> rfl
      have e2 := takeWhile_append_all repo (c :: tl) hrepow
        (by intro c' tl' h'; rw [List.cons.injEq] at h'; exact h'.1 ▸ hcw)
      have hq : (c == '?' || c == '#') = true := by
        rcases hc with rfl | rfl <;> rfl
      simp only [GitHubOrgRepo, orgRepoMatch, hdecomp, e1.1, e1.2, e2.1, e2.2,
        hoE, hrE, hq, Bool.false_eq_true, if_false, if_true]
      rw [Prod.mk.injEq]
      refine ⟨?_, rfl⟩
      congr 1
      simp only [List.append_assoc, List.cons_append]
      rw [List.takeWhile_append_dropWhile]
    · intro htail
      subst htail
      have e2 := takeWhile_append_all repo [] hrepow
        (by intro c' tl' h'; cases h')
      simp only [List.append_nil] at hdecomp e1 e2
      simp [GitHubOrgRepo, orgRepoMatch, hdecomp, e1.1, e1.2, e2.1, e2.2, hoE, hrE]
    · intro c tl htail hcw hq hh
      subst htail
      have e2 := takeWhile_append_all repo (c :: tl) hrepow
        (by intro c' tl' h'; rw [List.cons.injEq] at h'; exact h'.1 ▸ hcw)
      have hq' : (c == '?' || c == '#') = false := by
        rw [Bool.or_eq_false_iff]
        exact ⟨beq_eq_false_iff_ne.mpr hq, beq_eq_false_iff_ne.mpr hh⟩
      simp [GitHubOrgRepo, orgRepoMatch, hdecomp, e1.1, e1.2, e2.1, e2.2, hoE, hrE, hq']
  · intro hns
    cases hd : s.data.dropWhile isWordChar with
    | nil => simp [GitHubOrgRepo, orgRepoMatch, hd]
    | cons c tl =>
      have hc : c ≠ '/' := hns c (mem_of_dropWhile_head s.data c tl hd)
      have hnone : orgRepoMatch s.data = none := by
        simp only [orgRepoMatch, hd]
        split
        · rename_i rest2 heq
          rw [List.cons.injEq] at heq
          exact absurd heq.1 hc
        · rfl
      simp [GitHubOrgRepo, hnone]

/-- Witness for C5 (amended) at the repository's own test inputs:
`user/repo?ref=main` matches and maps to the `git+https` URL,
`user/repo` (no suffix) and `repo?ref=main` (no slash) do not match. -/
theorem claim_C5_witness :
    GitHubOrgRepo "user/repo?ref=main" =
      (("git+https://github.com/".data ++ "user".data ++
          '/' :: ("repo".data ++ "?ref=main".data)).asString, true) ∧
    GitHubOrgRepo "user/repo" = ("", false) ∧
    GitHubOrgRepo "repo?ref=main" = ("", false) := by
  refine ⟨?_, ?_, ?_⟩
  · exact ((claim_C5_amended "user/repo?ref=main").1 "user".data "repo".data
      "?ref=main".data rfl (by decide) (by decide) (by decide) (by decide)).1
      '?' "ref=main".data rfl (Or.inl rfl)
  · exact ((claim_C5_amended "user/repo").1 "user".data "repo".data []
      rfl (by decide) (by decide) (by decide) (by decide)).2.1 rfl
  · exact (claim_C5_amended "repo?ref=main").2 (by decide)

/-! ### C6: behaviour of the default mapper set on schemed GitHub URLs -/

/-- Counterexample to C6 as stated: the GitHub mapper does NOT pass an
`https://github.com/` input through unchanged — it reports a match and
prefixes the string with `git+`. -/
theorem claim_C6_cex :
    GitHub "https://github.com/user/repo" = ("git+https://github.com/user/repo", true) ∧
    ("git+https://github.com/user/repo" : String) ≠ "https://github.com/user/repo" := by
  exact ⟨rfl, by decide⟩

/-- C6 (amended): the GitHub mapper treats a schemed `https://github.com/`
input as matched but rewrites it to the `git+`-prefixed form, so mapping is
NOT idempotent on `https://github.com/` inputs; the canonical form for the
default backend is `git+https://github.com/...`, and on that form no
default mapper matches (for FilePath: provided no filesystem directory of
that name exists), so such canonical strings are left unmodified by the
mapper chain. -/
theorem claim_C6_amended (rest : String) (fs : FSModel)
    (hfs : ∀ p, fs.statIsDir p ≠ some true) :
    GitHub ("https://github.com/" ++ rest) =
      ("git+" ++ ("https://github.com/" ++ rest), true) ∧
    GitHub ("git+https://github.com/" ++ rest) = ("", false) ∧
    GitHubOrgRepo ("git+https://github.com/" ++ rest) = ("", false) ∧
    FilePath fs ("git+https://github.com/" ++ rest) = ("", false) ∧
    mapFirst (Default fs).mappers ("git+https://github.com/" ++ rest) = none := by
  have h1 : GitHub ("https://github.com/" ++ rest) =
      ("git+" ++ ("https://github.com/" ++ rest), true) := by
    have hf : hasPreStr ("https://github.com/" ++ rest) "github.com/" = false := rfl
    have ht := hasPre_append "https://github.com/" rest
    simp [GitHub, hf, ht]
  have h2 : GitHub ("git+https://github.com/" ++ rest) = ("", false) := rfl
  have h3 : GitHubOrgRepo ("git+https://github.com/" ++ rest) = ("", false) := rfl
  have h4 : FilePath fs ("git+https://github.com/" ++ rest) = ("", false) := by
    have hne : ("git+https://github.com/" ++ rest) ≠ "" := by
      intro h
      have hdata := congrArg String.data h
      rw [String.data_append] at hdata
      exact absurd (List.append_eq_nil.mp hdata).1 (by decide)
    have hfile : hasPreStr ("git+https://github.com/" ++ rest) "file://" = false := rfl
    have htilde : hasPreStr ("git+https://github.com/" ++ rest) "~/" = false := rfl
    have habs : isAbsStr ("git+https://github.com/" ++ rest) = false := rfl
    rcases hgw : fs.getwd with _ | wd
    · simp [FilePath, hne, hfile, htilde, habs, hgw]
    · rcases hst : fs.statIsDir (joinPath wd ("git+https://github.com/" ++ rest)) with _ | b
      · simp [FilePath, hne, hfile, htilde, habs, hgw, hst]
      · cases b
        · simp [FilePath, hne, hfile, htilde, habs, hgw, hst]
        · exact absurd hst (hfs _)
  refine ⟨h1, h2, h3, h4, ?_⟩
  show mapFirst [GitHub, GitHubOrgRepo, FilePath fs] _ = none
  rw [mapFirst_cons_false _ _ _ (by rw [h2]), mapFirst_cons_false _ _ _ (by rw [h3]),
      mapFirst_cons_false _ _ _ (by rw [h4])]
  rfl

/-- Witness for C6 (amended) at `user/repo` with the empty filesystem. -/
theorem claim_C6_witness :
    GitHub ("https://github.com/" ++ "user/repo") =
      ("git+" ++ ("https://github.com/" ++ "user/repo"), true) ∧
    mapFirst (Default fsEmpty).mappers ("git+https://github.com/" ++ "user/repo") = none := by
  have h := claim_C6_amended "user/repo" fsEmpty (fun p h => Option.noConfusion h)
  exact ⟨h.1, h.2.2.2.2⟩

/-! ### C7: resolving the empty string -/

/-- C7: resolving the empty string against the default Fetcher matches no
mapper, parses as an empty URL, matches no resolver, and yields the
"unsupported source" error — never a panic and never a successful
resolver/Source pair.  This holds for every filesystem state. -/
theorem claim_C7 (fs : FSModel) :
    mapFirst (Default fs).mappers "" = none ∧
    (Default fs).Resolve "" = .err "unsupported source: " ∧
    (∀ r src, (Default fs).Resolve "" ≠ .ok r src) ∧
    (∀ msg, (Default fs).Resolve "" ≠ .panicked msg) := by
  have h1 : mapFirst (Default fs).mappers "" = none := rfl
  have h2 : (Default fs).Resolve "" = .err "unsupported source: " := by
    rw [Resolve_mapFirst_none _ _ h1]
    rfl
  refine ⟨h1, h2, ?_, ?_⟩
  · intro r src h
    rw [h2] at h
    exact Resolved.noConfusion h
  · intro msg h
    rw [h2] at h
    exact Resolved.noConfusion h

/-- Witness for C7 at the empty filesystem model. -/
theorem claim_C7_witness :
    mapFirst (Default fsEmpty).mappers "" = none ∧
    (Default fsEmpty).Resolve "" = .err "unsupported source: " :=
  ⟨(claim_C7 fsEmpty).1, (claim_C7 fsEmpty).2.1⟩

/-! ### C8: the unsupported-source error -/

/-- C8: when the candidate string parses but no resolver's `Match` accepts
the URL, `Resolve` fails with an "unsupported source" error whose message
contains the unmatched URL (its rendering is a suffix of the message), and
returns no resolver/Source; this error is distinct from the
"invalid source" error produced when the string does not parse. -/
theorem claim_C8 {ρ : Type} (rm : ρ → URL → Bool) (rs : List ρ)
    (s s2 : String) (u : URL) :
    (parseURL s = some u → (∀ r ∈ rs, rm r u = false) →
      resolveParsed rm rs s = .err ("unsupported source: " ++ urlString u) ∧
      (urlString u).data <:+ ("unsupported source: " ++ urlString u).data ∧
      (∀ r src, resolveParsed rm rs s ≠ .ok r src)) ∧
    (parseURL s2 = none →
      resolveParsed rm rs s2 = .err ("invalid source " ++ goQuote s2)) ∧
    (∀ x y : String, "invalid source " ++ x ≠ "unsupported source: " ++ y) := by
  refine ⟨?_, ?_, ?_⟩
  · intro hp hnone
    have hsel := selectResolver_none rm rs u hnone
    have hres : resolveParsed rm rs s = .err ("unsupported source: " ++ urlString u) := by
      simp [resolveParsed, hp, hsel]
    refine ⟨hres, ?_, ?_⟩
    · rw [String.data_append]
      exact List.suffix_append _ _
    · intro r src h
      rw [hres] at h
      exact Resolved.noConfusion h
  · intro hp
    simp [resolveParsed, hp]
  · intro x y h
    have h1 : ("invalid source " ++ x).data.head? = some 'i' := rfl
    have h2 : ("unsupported source: " ++ y).data.head? = some 'u' := rfl
    rw [h, h2] at h1
    exact absurd (Option.some.inj h1) (by decide)

/-- Witness for C8 at the spec's `ftp://host/file` example against the
default resolver list, and at a non-parsing string `:bad`. -/
theorem claim_C8_witness :
    resolveParsed defaultMatch [DefaultResolver.file, .git, .tar, .zip] "ftp://host/file" =
      .err ("unsupported source: " ++ urlString ⟨"ftp", "", "host", "/file", "", ""⟩) ∧
    resolveParsed defaultMatch [DefaultResolver.file, .git, .tar, .zip] ":bad" =
      .err ("invalid source " ++ goQuote ":bad") := by
  have h := claim_C8 defaultMatch [DefaultResolver.file, .git, .tar, .zip]
    "ftp://host/file" ":bad" ⟨"ftp", "", "host", "/file", "", ""⟩
  exact ⟨(h.1 rfl (by decide)).1, h.2.1 rfl⟩

/-! ### C9: the FilePath mapper -/

/-- C9: the FilePath mapper (over an explicit filesystem model) passes
`file://` strings through unchanged with a match; maps absolute paths,
`~/`-relative paths, and relative paths (`./`, `../`, bare names) that
stat as directories to `file://` followed by the absolute, symlink-resolved
path; and reports a plain non-match — never an error or panic — for
non-existent paths, non-directories, and failed home-directory lookups. -/
theorem claim_C9 :
    (∀ (fs : FSModel) (r : String),
      FilePath fs ("file://" ++ r) = ("file://" ++ r, true)) ∧
    (∀ (fs : FSModel) (rest dir : String),
      fs.statIsDir ("/" ++ rest) = some true →
      fs.evalSymlinks ("/" ++ rest) = some dir →
      FilePath fs ("/" ++ rest) = ("file://" ++ dir, true)) ∧
    (∀ (fs : FSModel) (r : String),
      fs.userHomeDir = none → FilePath fs ("~/" ++ r) = ("", false)) ∧
    (∀ (fs : FSModel) (r home dir : String),
      fs.userHomeDir = some home →
      isAbsStr (joinPath home r) = true →
      fs.statIsDir (joinPath home r) = some true →
      fs.evalSymlinks (joinPath home r) = some dir →
      FilePath fs ("~/" ++ r) = ("file://" ++ dir, true)) ∧
    (∀ (fs : FSModel) (s wd dir : String),
      s ≠ "" → hasPreStr s "file://" = false → hasPreStr s "~/" = false →
      isAbsStr s = false → fs.getwd = some wd →
      fs.statIsDir (joinPath wd s) = some true →
      fs.evalSymlinks (joinPath wd s) = some dir →
      FilePath fs s = ("file://" ++ dir, true)) ∧
    (∀ (fs : FSModel) (rest : String),
      (fs.statIsDir ("/" ++ rest) = none ∨ fs.statIsDir ("/" ++ rest) = some false) →
      FilePath fs ("/" ++ rest) = ("", false)) := by
  have hdataNe : ∀ (c : Char) (p rest : String), p.data = c :: (p.data.drop 1) →
      (p ++ rest) ≠ "" := by
    intro c p rest hp h
    have hdata := congrArg String.data h
    rw [String.data_append, hp] at hdata
    cases hdata
  refine ⟨?_, ?_, ?_, ?_, ?_, ?_⟩
  · intro fs r
    have hne : ("file://" ++ r) ≠ "" := hdataNe 'f' "file://" r rfl
    have hfile := hasPre_append "file://" r
    simp [FilePath, hne, hfile]
  · intro fs rest dir hstat hsym
    have hne : ("/" ++ rest) ≠ "" := hdataNe '/' "/" rest rfl
    have hfile : hasPreStr ("/" ++ rest) "file://" = false := rfl
    have htilde : hasPreStr ("/" ++ rest) "~/" = false := rfl
    have habs : isAbsStr ("/" ++ rest) = true := hasPre_append "/" rest
    simp [FilePath, hne, hfile, htilde, habs, hstat, hsym]
  · intro fs r hh
    have hne : ("~/" ++ r) ≠ "" := hdataNe '~' "~/" r rfl
    have hfile : hasPreStr ("~/" ++ r) "file://" = false := rfl
    have htilde : hasPreStr ("~/" ++ r) "~/" = true := hasPre_append "~/" r
    simp [FilePath, hne, hfile, htilde, hh]
  · intro fs r home dir hh habs hstat hsym
    have hne : ("~/" ++ r) ≠ "" := hdataNe '~' "~/" r rfl
    have hfile : hasPreStr ("~/" ++ r) "file://" = false := rfl
    have htilde : hasPreStr ("~/" ++ r) "~/" = true := hasPre_append "~/" r
    have hdrop : dropChars ("~/" ++ r) 2 = r := rfl
    simp [FilePath, hne, hfile, htilde, hh, hdrop, habs, hstat, hsym]
  · intro fs s wd dir hne hfile htilde habs hw hstat hsym
    simp [FilePath, hne, hfile, htilde, habs, hw, hstat, hsym]
  · intro fs rest hstat
    have hne : ("/" ++ rest) ≠ "" := hdataNe '/' "/" rest rfl
    have hfile : hasPreStr ("/" ++ rest) "file://" = false := rfl
    have htilde : hasPreStr ("/" ++ rest) "~/" = false := rfl
    have habs : isAbsStr ("/" ++ rest) = true := hasPre_append "/" rest
    rcases hstat with hstat | hstat <;>
      simp [FilePath, hne, hfile, htilde, habs, hstat]

/-- Concrete filesystem model with a home directory, a working directory,
and three directories, used to witness the FilePath mapper claims. -/
def fsDemo : FSModel :=
  { userHomeDir := some "/home/u", getwd := some "/cwd",
    statIsDir := fun p =>
      if p = "/srv/data" ∨ p = "/cwd/proj" ∨ p = "/home/u/work" then some true else none,
    evalSymlinks := fun p => some p }

/-- Witness for C9 on the concrete filesystem model: passthrough, absolute,
bare-name-relative, home-relative, and non-existent inputs. -/
theorem claim_C9_witness :
    FilePath fsDemo "file://x" = ("file://x", true) ∧
    FilePath fsDemo "/srv/data" = ("file:///srv/data", true) ∧
    FilePath fsDemo "proj" = ("file:///cwd/proj", true) ∧
    FilePath fsDemo "~/work" = ("file:///home/u/work", true) ∧
    FilePath fsDemo "/nonexistent" = ("", false) := by
  refine ⟨?_, ?_, ?_, ?_, ?_⟩
  · exact claim_C9.1 fsDemo "x"
  · exact claim_C9.2.1 fsDemo "srv/data" "/srv/data" (by decide) rfl
  · exact claim_C9.2.2.2.2.1 fsDemo "proj" "/cwd" "/cwd/proj" (by decide) rfl rfl rfl
      rfl (by decide) (by decide)
  · exact claim_C9.2.2.2.1 fsDemo "work" "/home/u" "/home/u/work" rfl (by decide)
      (by decide) (by decide)
  · exact claim_C9.2.2.2.2.2 fsDemo "nonexistent" (Or.inl (by decide))

/-! ### C10: the TAR match predicate and its priority over ZIP -/

theorem reHasMatch_iff (p : List Char → Bool) (s : List Char) :
    reHasMatch p s = true ↔ ∃ l, l <:+: s ∧ p l = true := by
  unfold reHasMatch
  rw [List.any_eq_true]
  constructor
  · rintro ⟨t, ht, h2⟩
    rw [List.any_eq_true] at h2
    obtain ⟨l, hl, hp⟩ := h2
    exact ⟨l, List.infix_iff_prefix_suffix.mpr
      ⟨t, (List.mem_inits _ _).mp hl, (List.mem_tails _ _).mp ht⟩, hp⟩
  · rintro ⟨l, hinf, hp⟩
    obtain ⟨t, hpre, hsuf⟩ := List.infix_iff_prefix_suffix.mp hinf
    exact ⟨t, (List.mem_tails _ _).mpr hsuf,
      List.any_eq_true.mpr ⟨l, (List.mem_inits _ _).mpr hpre, hp⟩⟩

theorem pre_infix_trans {α : Type} {p l s : List α}
    (h₁ : p <+: l) (h₂ : l <:+: s) : p <:+: s := by
  obtain ⟨t, rfl⟩ := h₁
  obtain ⟨u, v, rfl⟩ := h₂
  exact ⟨u, t ++ v, by simp [List.append_assoc]⟩

theorem tarPat_char (l : List Char) (h : tarPat l = true) :
    ".tar".data <+: l ∨ l ∈ tarLits := by
  rw [tarPat, Bool.or_eq_true] at h
  rcases h with h | h
  · rw [tarAlt1, Bool.and_eq_true] at h
    exact Or.inl (List.isPrefixOf_iff_prefix.mp h.1)
  · rw [tarAlt2, List.any_eq_true] at h
    obtain ⟨lit, hmem, hbeq⟩ := h
    exact Or.inr (beq_iff_eq.mp hbeq ▸ hmem)

/-- C10: `TAR.Match` holds iff the URL's path CONTAINS (anywhere, not only
as a suffix) a substring in the language of `tarRe` — equivalently, one of
the seven literals `.tar`, `.tbz`, `.txz`, `.tzstd`, `.tlz`, `.tZ`, `.tgz`
occurs in the path (the `\.tar(\.[a-z]+)?` alternative contributes exactly
the paths containing `.tar`, so `/archive.tar.unknown` and any path with
`.tar` mid-path match); and in the Default resolver order such URLs are
never dispatched to ZIP — dispatch reaches TAR before ZIP is consulted, so
a TAR-matching URL goes to TAR whenever File and Git decline it. -/
theorem claim_C10 :
    (∀ s : String, tarReMatchStr s = true ↔
      ∃ lit ∈ (".tar".data :: tarLits), lit <:+: s.data) ∧
    tarReMatchStr "/archive.tar.unknown" = true ∧
    (∀ pre post : List Char,
      tarReMatchStr ((pre ++ ".tar".data ++ post).asString) = true) ∧
    (∀ u : URL, TAR.Match u = true →
      ∃ r src,
        selectResolver defaultMatch [DefaultResolver.file, .git, .tar, .zip] u =
            some (r, src) ∧
          r ≠ DefaultResolver.zip) ∧
    (∀ u : URL, TAR.Match u = true →
      File.Match u = false → Git.Match u = false →
      selectResolver defaultMatch [DefaultResolver.file, .git, .tar, .zip] u =
        some (DefaultResolver.tar, mkSource u)) ∧
    (∀ fs : FSModel, (Default fs).resolvers = [.file, .git, .tar, .zip]) := by
  have hchar : ∀ s : String, tarReMatchStr s = true ↔
      ∃ lit ∈ (".tar".data :: tarLits), lit <:+: s.data := by
    intro s
    rw [show tarReMatchStr s = reHasMatch tarPat s.data from rfl, reHasMatch_iff]
    constructor
    · rintro ⟨l, hinf, hp⟩
      rcases tarPat_char l hp with h | h
      · exact ⟨".tar".data, List.mem_cons_self _ _, pre_infix_trans h hinf⟩
      · exact ⟨l, List.mem_cons_of_mem _ h, hinf⟩
    · rintro ⟨lit, hmem, hinf⟩
      have hall : ∀ x ∈ (".tar".data :: tarLits), tarPat x = true := by decide
      exact ⟨lit, hinf, hall lit hmem⟩
  refine ⟨hchar, by decide, ?_, ?_, ?_, fun _ => rfl⟩
  · intro pre post
    rw [show tarReMatchStr ((pre ++ ".tar".data ++ post).asString) =
          reHasMatch tarPat (pre ++ ".tar".data ++ post) from rfl,
        reHasMatch_iff]
    exact ⟨".tar".data, ⟨pre, post, rfl⟩, by decide⟩
  · intro u htar
    cases hf : File.Match u with
    | true =>
      exact ⟨.file, mkSource u, by simp [selectResolver, defaultMatch, hf], by decide⟩
    | false =>
      cases hg : Git.Match u with
      | true =>
        exact ⟨.git, mkSource u, by simp [selectResolver, defaultMatch, hf, hg], by decide⟩
      | false =>
        exact ⟨.tar, mkSource u,
          by simp [selectResolver, defaultMatch, hf, hg, htar], by decide⟩
  · intro u htar hf hg
    simp [selectResolver, defaultMatch, hf, hg, htar]

/-- Witness for C10: a URL with a `.tar` path on a non-file, non-git scheme
is dispatched to TAR, and a path with `.tar` mid-path (with an unknown
trailing extension) matches. -/
theorem claim_C10_witness :
    selectResolver defaultMatch [DefaultResolver.file, .git, .tar, .zip]
        ⟨"http", "", "host", "/x.tar", "", ""⟩ =
      some (DefaultResolver.tar, mkSource ⟨"http", "", "host", "/x.tar", "", ""⟩) ∧
    tarReMatchStr "/a/x.tar.unknown/y" = true := by
  constructor
  · exact claim_C10.2.2.2.2.1 ⟨"http", "", "host", "/x.tar", "", ""⟩ (by decide) rfl rfl
  · exact claim_C10.2.2.1 "/a/x".data ".unknown/y".data

end Getit
